import Mathlib

/-!
Verification of the key.js JSON key-value store.

The embedding models, from the source:
  * the JSON values the service stores (`Json`), with the JavaScript
    truthiness and property-access semantics the router relies on;
  * the in-memory backing store `src/stores/memory.js` (a JavaScript
    object used as a map, modelled as an association list with the
    first-occurrence update/lookup/removal semantics of JS objects);
  * the Postgres backing store `src/stores/postgres.js` (a table with a
    varchar primary key and a JSON value column, modelled as an
    association list of rows, with the envelope wrapping of values);
  * the Express router `src/key.js` (each route handler as a pure
    function from the backing store's settled promise result to the
    HTTP response, with `next(err)` propagation and the absence of a
    rejection handler modelled explicitly).
-/

set_option autoImplicit false

namespace KeyJs

/-- JSON values as stored and transported by the service. JavaScript
numbers are modelled as integers; none of the verified properties
depends on numeric arithmetic. -/
inductive Json where
  | null : Json
  | bool : Bool → Json
  | num : Int → Json
  | str : String → Json
  | arr : List Json → Json
  | obj : List (String × Json) → Json

/-- JavaScript truthiness of a JSON value, as used by the router's
`if(config.allowNuke && req.body && req.body.nuke)` test: `null`,
`false`, `0` and the empty string are falsy; arrays and objects
(including empty ones) are truthy. -/
def jsTruthy : Json → Bool
  | Json.null => false
  | Json.bool b => b
  | Json.num n => n != 0
  | Json.str s => s != ""
  | Json.arr _ => true
  | Json.obj _ => true

/-- JavaScript property access `j.name`: the first field of that name on
an object, `undefined` (modelled as `none`) on a missing field or a
non-object value. -/
def getProp : Json → String → Option Json
  | Json.obj fields, name => List.lookup name fields
  | _, _ => none

end KeyJs

namespace KeyJs.AList

/-- Association-list primitives shared by the two store models: both the
JavaScript object of the memory store and the primary-keyed table of
the Postgres store are finite maps from strings to JSON values whose
update, lookup and removal act on the first (in the code, only)
occurrence of a key. -/
abbrev Entries := List (String × KeyJs.Json)

/-- Insert-or-replace: replace the (first) binding of `k` in place, or
append a new binding. This is JavaScript property assignment
`store[key] = value`, and likewise the `upsert` plpgsql function of
`pg_init.sql` run sequentially (INSERT a fresh row, or UPDATE the
existing row on a primary-key conflict). -/
def setKey : Entries → String → KeyJs.Json → Entries
  | [], k, v => [(k, v)]
  | p :: rest, k, v => if p.1 = k then (k, v) :: rest else p :: setKey rest k v

/-- Remove the (first) binding of `k`: JavaScript `delete store[key]`. -/
def removeKey : Entries → String → Entries
  | [], _ => []
  | p :: rest, k => if p.1 = k then rest else p :: removeKey rest k

/-- Is `k` bound? JavaScript `key in store`. -/
def hasKey (store : Entries) (k : String) : Bool :=
  store.any (fun p => p.1 = k)

end KeyJs.AList

namespace KeyJs.Memory

open KeyJs.AList

/-- The in-memory store of `src/stores/memory.js` is a JavaScript object
(`var store = {}`) mapping munged keys to values. -/
abbrev MemStore := KeyJs.AList.Entries

/-- Source: `var KEY_PREFIX = 'key_';` — the key munger prefix used to
prevent keys like `prototype` from colliding with object metadata. -/
def KEY_PREFIX : String := "key_"

/-- Source: `function prepKey(key) { return KEY_PREFIX+key; }`. -/
def prepKey (key : String) : String := KEY_PREFIX ++ key

/-- Source: `this.nuke = function() { store = {}; ... }`. -/
def nuke (_store : MemStore) : MemStore := []

/-- JavaScript `prop.slice(n)` for the munged-key strings of this store:
drop the first `n` characters. Used by `getAll` to strip the munge
prefix. -/
def sliceFrom (s : String) (n : Nat) : String := String.mk (s.data.drop n)

/-- Source: `this.getAll` — builds a fresh object binding, for each
stored property `prop`, `prop.slice(KEY_PREFIX.length)` to its value. -/
def getAll (store : MemStore) : List (String × KeyJs.Json) :=
  store.map (fun p => (sliceFrom p.1 KEY_PREFIX.length, p.2))

/-- Source: `this.get` — `store[prepKey(key)]`, resolving to the value
or to `undefined` (modelled as `none`) when the key is absent. -/
def get (store : MemStore) (key : String) : Option KeyJs.Json :=
  List.lookup (prepKey key) store

/-- Source: `this.upsert` — `store[prepKey(key)] = value`. The promise
resolves with the constant `1`, which no caller reads; the model
returns the updated store. -/
def upsert (store : MemStore) (key : String) (value : KeyJs.Json) : MemStore :=
  setKey store (prepKey key) value

/-- Source: `this.delete` — if `prepKey(key) in store` then delete the
binding and resolve `1`, else resolve `0`. Both branches resolve; the
promise never rejects. -/
def del (store : MemStore) (key : String) : MemStore × Nat :=
  let k := prepKey key
  if hasKey store k then (removeKey store k, 1) else (store, 0)

/-- One backing-store operation, for stating sequential-run invariants. -/
inductive Op where
  | upsertOp : String → KeyJs.Json → Op
  | deleteOp : String → Op
  | nukeOp : Op

/-- Apply one operation to the store, discarding delete counts. -/
def applyOp (store : MemStore) : Op → MemStore
  | Op.upsertOp k v => upsert store k v
  | Op.deleteOp k => (del store k).1
  | Op.nukeOp => nuke store

/-- Run a sequence of operations left to right. -/
def applyOps (store : MemStore) (ops : List Op) : MemStore :=
  ops.foldl applyOp store

/-- Does the operation write (upsert/delete/nuke) the entry of key `k`? -/
def touchesKey (k : String) : Op → Bool
  | Op.upsertOp k' _ => k' = k
  | Op.deleteOp k' => k' = k
  | Op.nukeOp => true

/-- Is the operation an upsert to key `k`? -/
def isUpsertTo (k : String) : Op → Bool
  | Op.upsertOp k' _ => k' = k
  | _ => false

/-- A sequence of upserts into a fresh memory store, the way the test
suite loads its fixtures. -/
def upsertAll (kvs : List (String × KeyJs.Json)) : MemStore :=
  kvs.foldl (fun s kv => upsert s kv.1 kv.2) []

/-- Every key of a store built by the code is a munged key. -/
def IsMunged (s : MemStore) : Prop :=
  ∀ p ∈ s, ∃ ek : String, p.1 = prepKey ek

end KeyJs.Memory

namespace KeyJs.Postgres

open KeyJs.AList

/-- The KVS table of `src/stores/postgres.js` and `pg_init.sql`:
`CREATE TABLE KVS (key VARCHAR(1024) PRIMARY KEY, value JSON)`,
modelled as an association list of rows; the primary-key constraint
makes the key column duplicate-free in any reachable table. -/
abbrev PgTable := KeyJs.AList.Entries

/-- Source: `this.upsert` wraps the value before storing — the query is
`SELECT upsert($1, $2)` with parameters `[key, ...]` where the second
parameter is the object with single field `value` holding the real
value — because Postgres can only store JSON objects at the top
level, not arrays. -/
def wrapValue (v : KeyJs.Json) : KeyJs.Json := KeyJs.Json.obj [("value", v)]

/-- Source: the `upsert` plpgsql function of `pg_init.sql` (try INSERT,
and UPDATE the conflicting row when the INSERT fails), applied by
`this.upsert` to the wrapped value. Run sequentially this replaces
the row of `key` or inserts a fresh one. -/
def upsert (table : PgTable) (key : String) (value : KeyJs.Json) : PgTable :=
  setKey table key (wrapValue value)

/-- Source: `this.get` — `SELECT VALUE FROM KVS WHERE key = $1`; with no
rows the promise resolves `undefined`, else it resolves
`result.rows[0].value.value`, unwrapping the envelope (`undefined`
again if the stored JSON has no `value` field). -/
def get (table : PgTable) (key : String) : Option KeyJs.Json :=
  match List.lookup key table with
  | none => none
  | some stored => KeyJs.getProp stored "value"

/-- Source: `this.getAll` — `SELECT * FROM KVS`, then for each row
`all[row.key] = row.value.value`, unwrapping the envelope. -/
def getAll (table : PgTable) : List (String × Option KeyJs.Json) :=
  table.map (fun row => (row.1, KeyJs.getProp row.2 "value"))

/-- Source: `this.delete` — `DELETE FROM KVS WHERE key = $1`, resolving
`result.rowCount`, the number of rows removed. -/
def del (table : PgTable) (key : String) : PgTable × Nat :=
  (table.filter (fun row => row.1 ≠ key), table.countP (fun row => row.1 = key))

/-- Source: `this.nuke` — `DELETE FROM KVS`. -/
def nuke (_table : PgTable) : PgTable := []

end KeyJs.Postgres

namespace KeyJs.Router

/-- A response body: plain text, a JSON value, or the JSON object built
by the get-all route. -/
inductive ResBody where
  | text : String → ResBody
  | json : KeyJs.Json → ResBody
  | jsonMap : List (String × KeyJs.Json) → ResBody

/-- An HTTP response: a status code and a body. `res.send(x)` with no
explicit status sends 200. -/
structure Response where
  status : Nat
  body : ResBody

/-- Fate of a routed request once the store promise settles: a response
was sent; or the error was forwarded via `next(err)` into the
error-handling middleware (the generic 500 path, per the comment in
`router.post /nuke`); or nothing happened at all because the
rejection had no callback attached. -/
inductive Outcome where
  | response : Response → Outcome
  | serverError : String → Outcome
  | dropped : Outcome

/-- Source: `router.get(VERSION_PREFIX+'/all', ...)` —
`store.getAll().then(function(all) { res.send(all); })`. Only an
onFulfilled callback is attached; a rejected promise has no handler,
so the request is never answered and the error goes nowhere. -/
def routeGetAll (result : Except String (List (String × KeyJs.Json))) : Outcome :=
  match result with
  | Except.ok all => Outcome.response ⟨200, ResBody.jsonMap all⟩
  | Except.error _ => Outcome.dropped

/-- Source: `router.get(VERSION_PREFIX+'/key/:id', ...)` — `next` is
passed as the promise's onRejected callback; a fulfilled result that
is not `undefined` is sent with 200, `undefined` yields 404. -/
def routeGetKey (key : String) (result : Except String (Option KeyJs.Json)) : Outcome :=
  match result with
  | Except.ok (some v) => Outcome.response ⟨200, ResBody.json v⟩
  | Except.ok none => Outcome.response ⟨404, ResBody.text ("No value for key " ++ key)⟩
  | Except.error e => Outcome.serverError e

/-- Source: `router.delete(VERSION_PREFIX+'/key/:id', ...)` — `next` as
onRejected; on fulfilment `if(count)` sends 200, else 404. -/
def routeDeleteKey (key : String) (result : Except String Nat) : Outcome :=
  match result with
  | Except.ok count =>
    if count != 0 then Outcome.response ⟨200, ResBody.text ("Deleted " ++ key)⟩
    else Outcome.response ⟨404, ResBody.text ("Key `" ++ key ++ "` was not in the store!")⟩
  | Except.error e => Outcome.serverError e

/-- Source: the `store.upsert(...).then(..., next)` tail of
`router.put` — `next` as onRejected; on fulfilment 201. -/
def routePutUpsert (key : String) (result : Except String Unit) : Outcome :=
  match result with
  | Except.ok _ => Outcome.response ⟨201, ResBody.text ("Stored `" ++ key ++ "`.")⟩
  | Except.error e => Outcome.serverError e

/-- Source: the `store.nuke().then(..., next)` call of `router.post
/nuke` once both gates pass — `next` as onRejected; on fulfilment
200. -/
def routeNuke (result : Except String Unit) : Outcome :=
  match result with
  | Except.ok _ => Outcome.response ⟨200, ResBody.text "Deleted all keys."⟩
  | Except.error e => Outcome.serverError e

/-- A record of the backing-store operations a request caused. -/
inductive StoreCall where
  | upsertCall : String → KeyJs.Json → StoreCall
  | getCall : String → StoreCall
  | deleteCall : String → StoreCall
  | nukeCall : StoreCall

/-- The raw request body as the body-parser middleware sees it: empty
(Content-Length 0), well-formed JSON text (carried parsed), or text
that is not JSON at all. -/
inductive RawBody where
  | empty : RawBody
  | jsonText : KeyJs.Json → RawBody
  | malformed : RawBody

/-- Modelled external collaborator: the body-parser json middleware
(`router.use(require('body-parser').json())`) as this router consumes
it. With a non-JSON content type it skips parsing and leaves the body
as the empty object (per the comment in `router.put`: body-parser
just leaves us with an empty JSON object if the body is not JSON).
With a JSON content type it parses in its default strict mode: the
empty body is special-cased to the empty object; a body whose JSON
top level is not an array or an object (bare null, string, number,
boolean), or that is not valid JSON, raises a 400 error that
short-circuits into the error middleware before any route handler
runs. -/
def parseBody (ctJson : Bool) (raw : RawBody) : Except Nat KeyJs.Json :=
  if ctJson then
    match raw with
    | RawBody.empty => Except.ok (KeyJs.Json.obj [])
    | RawBody.jsonText j =>
      match j with
      | KeyJs.Json.arr xs => Except.ok (KeyJs.Json.arr xs)
      | KeyJs.Json.obj fields => Except.ok (KeyJs.Json.obj fields)
      | _ => Except.error 400
    | RawBody.malformed => Except.error 400
  else Except.ok (KeyJs.Json.obj [])

/-- Modelled external collaborator: Express path matching for the route
pattern `/v1/key/:id` — the `:id` segment matches one or more
non-slash characters, so a request whose key segment is empty matches
no route and falls through to the framework default 404. -/
def keyRouteMatches (key : String) : Bool := key ≠ ""

/-- Source: `router.put(VERSION_PREFIX+'/key/:id', ...)` behind the
body-parser middleware and route matching: a parse failure
short-circuits with its status; an unmatched path yields the
framework 404; the handler itself rejects a non-JSON content type
with 400 before calling the store ("doublecheck what the client said
before doing anything"), and otherwise upserts the parsed body and
responds 201. The returned list records the store operations the
request invoked. -/
def putPipeline (key : String) (ctJson : Bool) (raw : RawBody) : Nat × List StoreCall :=
  match parseBody ctJson raw with
  | Except.error status => (status, [])
  | Except.ok body =>
    if keyRouteMatches key then
      if ctJson then (201, [StoreCall.upsertCall key body])
      else (400, [])
    else (404, [])

/-- Source: the guard `config.allowNuke && req.body && req.body.nuke` of
`router.post(VERSION_PREFIX+'/nuke', ...)`, under JavaScript
truthiness. -/
def nukeAllowed (allowNuke : Bool) (body : KeyJs.Json) : Bool :=
  allowNuke && (KeyJs.jsTruthy body &&
    (match KeyJs.getProp body "nuke" with
     | some j => KeyJs.jsTruthy j
     | none => false))

/-- Source: `router.post(VERSION_PREFIX+'/nuke', ...)`: when the guard
holds the handler nukes the store and responds 200, otherwise it
responds 400 without touching the store. -/
def nukeRoute (allowNuke : Bool) (body : KeyJs.Json) : Nat × List StoreCall :=
  if nukeAllowed allowNuke body then (200, [StoreCall.nukeCall])
  else (400, [])

end KeyJs.Router

namespace KeyJs.AList

theorem lookup_cons {β : Type} (a k : String) (b : β) (es : List (String × β)) :
    List.lookup a ((k, b) :: es) = if a = k then some b else List.lookup a es := by
  by_cases h : a = k
  · rw [List.lookup, if_pos h, show (a == k) = true from beq_iff_eq.mpr h]
  · rw [List.lookup, if_neg h, show (a == k) = false from beq_eq_false_iff_ne.mpr h]

theorem lookup_setKey_self (s : Entries) (k : String) (v : KeyJs.Json) :
    List.lookup k (setKey s k v) = some v := by
  induction s with
  | nil => simp [setKey, lookup_cons]
  | cons p rest ih =>
    by_cases h : p.1 = k
    · simp [setKey, h, lookup_cons]
    · rcases p with ⟨pk, pv⟩
      simp only [setKey, if_neg h, lookup_cons]
      rw [if_neg (fun hc => h hc.symm), ih]

theorem lookup_setKey_ne (s : Entries) {k k' : String} (v : KeyJs.Json) (h : k' ≠ k) :
    List.lookup k' (setKey s k v) = List.lookup k' s := by
  induction s with
  | nil => simp [setKey, lookup_cons, h]
  | cons p rest ih =>
    rcases p with ⟨pk, pv⟩
    by_cases hp : pk = k
    · simp only [setKey, if_pos hp, lookup_cons]
      rw [if_neg h, if_neg (hp ▸ h)]
    · simp only [setKey, if_neg hp, lookup_cons]
      rw [ih]

theorem lookup_removeKey_ne (s : Entries) {k k' : String} (h : k' ≠ k) :
    List.lookup k' (removeKey s k) = List.lookup k' s := by
  induction s with
  | nil => simp [removeKey]
  | cons p rest ih =>
    rcases p with ⟨pk, pv⟩
    by_cases hp : pk = k
    · simp only [removeKey, if_pos hp, lookup_cons]
      rw [if_neg (hp ▸ h)]
    · simp only [removeKey, if_neg hp, lookup_cons]
      rw [ih]

theorem lookup_eq_none_iff_not_hasKey (s : Entries) (k : String) :
    List.lookup k s = none ↔ hasKey s k = false := by
  induction s with
  | nil => simp [List.lookup, hasKey]
  | cons p rest ih =>
    rcases p with ⟨pk, pv⟩
    rw [lookup_cons]
    by_cases hp : k = pk
    · subst hp
      simp [hasKey]
    · rw [if_neg hp, ih, hasKey, hasKey, List.any_cons]
      rw [show (decide (pk = k)) = false from decide_eq_false (fun hc => hp hc.symm)]
      rw [Bool.false_or]

theorem lookup_removeKey_self (s : Entries) (k : String)
    (hnd : (s.map Prod.fst).Nodup) : List.lookup k (removeKey s k) = none := by
  induction s with
  | nil => simp [removeKey]
  | cons p rest ih =>
    rcases p with ⟨pk, pv⟩
    rw [List.map_cons, List.nodup_cons] at hnd
    by_cases hp : pk = k
    · rw [removeKey, if_pos hp]
      rw [lookup_eq_none_iff_not_hasKey]
      subst hp
      by_contra hk
      rcases Bool.not_eq_false _ |>.mp hk with h
      simp only [hasKey, List.any_eq_true, decide_eq_true_eq] at h
      rcases h with ⟨q, hq, hq1⟩
      have hm : q.1 ∈ rest.map Prod.fst := List.mem_map_of_mem Prod.fst hq
      rw [hq1] at hm
      exact hnd.1 hm
    · rw [removeKey, if_neg hp]
      rw [lookup_cons, if_neg (fun hc : k = pk => hp hc.symm), ih hnd.2]

theorem mem_setKey {q : String × KeyJs.Json} {s : Entries} {k : String} {v : KeyJs.Json}
    (h : q ∈ setKey s k v) : q = (k, v) ∨ q ∈ s := by
  induction s with
  | nil => simpa [setKey] using h
  | cons p rest ih =>
    by_cases hp : p.1 = k
    · rw [setKey, if_pos hp] at h
      rcases List.mem_cons.mp h with h1 | h1
      · exact Or.inl h1
      · exact Or.inr (List.mem_cons_of_mem p h1)
    · rw [setKey, if_neg hp] at h
      rcases List.mem_cons.mp h with h1 | h1
      · exact Or.inr (h1 ▸ List.mem_cons_self p rest)
      · rcases ih h1 with h2 | h2
        · exact Or.inl h2
        · exact Or.inr (List.mem_cons_of_mem p h2)

theorem mem_keys_setKey (a : String) (s : Entries) (k : String) (v : KeyJs.Json) :
    a ∈ (setKey s k v).map Prod.fst ↔ a = k ∨ a ∈ s.map Prod.fst := by
  induction s with
  | nil => simp [setKey]
  | cons p rest ih =>
    by_cases hp : p.1 = k
    · rw [setKey, if_pos hp]
      simp only [List.map_cons, List.mem_cons]
      rw [hp]
      tauto
    · rw [setKey, if_neg hp]
      simp only [List.map_cons, List.mem_cons, ih]
      tauto

end KeyJs.AList

namespace KeyJs.Memory

open KeyJs.AList

theorem prepKey_injective {k₁ k₂ : String} (h : prepKey k₁ = prepKey k₂) : k₁ = k₂ := by
  have hd := congrArg String.data h
  rw [prepKey, prepKey, String.data_append, String.data_append] at hd
  exact String.ext (List.append_cancel_left hd)

theorem sliceFrom_prepKey (k : String) : sliceFrom (prepKey k) KEY_PREFIX.length = k := by
  show String.mk (((KEY_PREFIX : String) ++ k).data.drop (String.length KEY_PREFIX)) = k
  rw [String.data_append, show (KEY_PREFIX : String).data = ['k', 'e', 'y', '_'] from by decide]
  cases k
  rfl

theorem get_upsert_self (s : MemStore) (k : String) (v : KeyJs.Json) :
    get (upsert s k v) k = some v :=
  lookup_setKey_self s (prepKey k) v

theorem get_upsert_ne (s : MemStore) {k k' : String} (v : KeyJs.Json) (h : k' ≠ k) :
    get (upsert s k v) k' = get s k' :=
  lookup_setKey_ne s v (fun hc => h (prepKey_injective hc))

theorem get_del_ne (s : MemStore) {k k' : String} (h : k' ≠ k) :
    get ((del s k).1) k' = get s k' := by
  rw [del]
  by_cases hs : hasKey s (prepKey k)
  · rw [if_pos hs]
    exact lookup_removeKey_ne s (fun hc => h (prepKey_injective hc))
  · rw [if_neg hs]

theorem get_del_self (s : MemStore) (k : String) (hnd : (s.map Prod.fst).Nodup) :
    get ((del s k).1) k = none := by
  rw [del]
  by_cases hs : hasKey s (prepKey k)
  · rw [if_pos hs]
    exact lookup_removeKey_self s (prepKey k) hnd
  · rw [if_neg hs]
    exact (lookup_eq_none_iff_not_hasKey s (prepKey k)).mpr (Bool.not_eq_true _ |>.mp hs)

theorem get_nuke (s : MemStore) (k : String) : get (nuke s) k = none := rfl

theorem get_applyOp_untouched {k : String} {op : Op} (s : MemStore)
    (h : touchesKey k op = false) : get (applyOp s op) k = get s k := by
  cases op with
  | upsertOp k' v =>
    simp only [touchesKey, decide_eq_false_iff_not] at h
    exact get_upsert_ne s v (fun hc => h hc.symm)
  | deleteOp k' =>
    simp only [touchesKey, decide_eq_false_iff_not] at h
    exact get_del_ne s (fun hc => h hc.symm)
  | nukeOp => exact absurd h (by simp [touchesKey])

theorem get_applyOps_untouched {k : String} {ops : List Op} (s : MemStore)
    (h : ∀ op ∈ ops, touchesKey k op = false) :
    get (applyOps s ops) k = get s k := by
  induction ops generalizing s with
  | nil => rfl
  | cons op rest ih =>
    rw [applyOps, List.foldl_cons]
    rw [show List.foldl applyOp (applyOp s op) rest = applyOps (applyOp s op) rest from rfl]
    rw [ih (applyOp s op) (fun o ho => h o (List.mem_cons_of_mem op ho))]
    exact get_applyOp_untouched s (h op (List.mem_cons_self op rest))

theorem get_applyOp_absent {k : String} {op : Op} (s : MemStore)
    (h : isUpsertTo k op = false) (ha : get s k = none) :
    get (applyOp s op) k = none := by
  cases op with
  | upsertOp k' v =>
    simp only [isUpsertTo, decide_eq_false_iff_not] at h
    rw [applyOp, get_upsert_ne s v (fun hc => h hc.symm)]
    exact ha
  | deleteOp k' =>
    by_cases hk : k' = k
    · subst hk
      rw [applyOp, del]
      rw [if_neg (by rw [(lookup_eq_none_iff_not_hasKey s (prepKey k')).mp ha]; exact Bool.false_ne_true)]
      exact ha
    · rw [applyOp, get_del_ne s (fun hc => hk hc.symm)]
      exact ha
  | nukeOp => exact get_nuke s k

theorem get_applyOps_absent {k : String} {ops : List Op} (s : MemStore)
    (h : ∀ op ∈ ops, isUpsertTo k op = false) (ha : get s k = none) :
    get (applyOps s ops) k = none := by
  induction ops generalizing s with
  | nil => exact ha
  | cons op rest ih =>
    rw [applyOps, List.foldl_cons]
    exact ih (applyOp s op) (fun o ho => h o (List.mem_cons_of_mem op ho))
      (get_applyOp_absent s (h op (List.mem_cons_self op rest)) ha)

theorem isMunged_setKey {s : MemStore} (hm : IsMunged s) (k : String) (v : KeyJs.Json) :
    IsMunged (setKey s (prepKey k) v) := by
  intro p hp
  rcases mem_setKey hp with h | h
  · exact ⟨k, by rw [h]⟩
  · exact hm p h

theorem isMunged_upsertAll_aux (kvs : List (String × KeyJs.Json)) (s : MemStore)
    (hm : IsMunged s) : IsMunged (kvs.foldl (fun s kv => upsert s kv.1 kv.2) s) := by
  induction kvs generalizing s with
  | nil => exact hm
  | cons kv rest ih =>
    rw [List.foldl_cons]
    exact ih (upsert s kv.1 kv.2) (isMunged_setKey hm kv.1 kv.2)

theorem mem_keys_getAll (s : MemStore) (hm : IsMunged s) (k : String) :
    k ∈ (getAll s).map Prod.fst ↔ prepKey k ∈ s.map Prod.fst := by
  constructor
  · intro h
    simp only [getAll, List.map_map, List.mem_map, Function.comp] at h
    rcases h with ⟨p, hp, hslice⟩
    rcases hm p hp with ⟨ek, hek⟩
    rw [hek] at hslice
    rw [sliceFrom_prepKey ek] at hslice
    subst hslice
    rw [← hek]
    exact List.mem_map_of_mem Prod.fst hp
  · intro h
    rcases List.mem_map.mp h with ⟨p, hp, hfst⟩
    simp only [getAll, List.map_map, List.mem_map, Function.comp]
    refine ⟨p, hp, ?_⟩
    rw [hfst, sliceFrom_prepKey k]

theorem mem_keys_upsertAll_aux (kvs : List (String × KeyJs.Json)) (s : MemStore) (k : String) :
    prepKey k ∈ (kvs.foldl (fun s kv => upsert s kv.1 kv.2) s).map Prod.fst ↔
      prepKey k ∈ s.map Prod.fst ∨ k ∈ kvs.map Prod.fst := by
  induction kvs generalizing s with
  | nil => simp
  | cons kv rest ih =>
    rw [List.foldl_cons, ih]
    rw [show upsert s kv.1 kv.2 = setKey s (prepKey kv.1) kv.2 from rfl]
    rw [mem_keys_setKey]
    constructor
    · rintro ((h | h) | h)
      · exact Or.inr (by rw [List.map_cons, List.mem_cons]; exact Or.inl (prepKey_injective h))
      · exact Or.inl h
      · exact Or.inr (List.mem_cons_of_mem kv.1 h)
    · rintro (h | h)
      · exact Or.inl (Or.inr h)
      · rcases List.mem_cons.mp h with h1 | h1
        · exact Or.inl (Or.inl (by rw [h1]))
        · exact Or.inr h1

end KeyJs.Memory

namespace KeyJs.Postgres

open KeyJs.AList

theorem getProp_wrapValue (v : KeyJs.Json) :
    KeyJs.getProp (wrapValue v) "value" = some v := by
  rw [wrapValue, KeyJs.getProp, lookup_cons, if_pos rfl]

theorem countP_keys_le_one {l : List String} (hnd : l.Nodup) (k : String) :
    l.countP (fun a => a = k) ≤ 1 := by
  induction l with
  | nil => simp [List.countP_nil]
  | cons x xs ih =>
    rw [List.nodup_cons] at hnd
    rw [List.countP_cons]
    by_cases h : x = k
    · subst h
      have hz : xs.countP (fun a => a = x) = 0 :=
        List.countP_eq_zero.mpr
          (fun a ha => by
            simp only [decide_eq_true_eq]
            intro hax
            exact hnd.1 (hax ▸ ha))
      rw [hz]
      simp
    · rw [if_neg (by simp [h])]
      simpa using ih hnd.2

theorem countP_key_le_one (t : PgTable) (k : String) (hnd : (t.map Prod.fst).Nodup) :
    t.countP (fun row => row.1 = k) ≤ 1 := by
  have h1 : t.countP (fun row => row.1 = k) = (t.map Prod.fst).countP (fun a => a = k) := by
    rw [List.countP_map]
    rfl
  rw [h1]
  exact countP_keys_le_one hnd k

theorem countP_key_pos_iff (t : PgTable) (k : String) :
    0 < t.countP (fun row => row.1 = k) ↔ List.lookup k t ≠ none := by
  rw [List.countP_pos_iff]
  constructor
  · rintro ⟨row, hrow, hk⟩
    rw [Ne, lookup_eq_none_iff_not_hasKey]
    simp only [decide_eq_true_eq] at hk
    intro hfalse
    have ht : hasKey t k = true := by
      simp only [hasKey, List.any_eq_true, decide_eq_true_eq]
      exact ⟨row, hrow, hk⟩
    rw [ht] at hfalse
    exact Bool.noConfusion hfalse
  · intro h
    rw [Ne, lookup_eq_none_iff_not_hasKey] at h
    rcases Bool.not_eq_false _ |>.mp h with h1
    simp only [hasKey, List.any_eq_true, decide_eq_true_eq] at h1
    rcases h1 with ⟨row, hrow, hk⟩
    exact ⟨row, hrow, by simpa using hk⟩

theorem lookup_filter_key_out (t : PgTable) (k : String) :
    List.lookup k (t.filter (fun row => row.1 ≠ k)) = none := by
  rw [lookup_eq_none_iff_not_hasKey]
  by_contra hk
  rcases Bool.not_eq_false _ |>.mp hk with h1
  simp only [hasKey, List.any_eq_true, List.mem_filter, decide_eq_true_eq] at h1
  rcases h1 with ⟨row, ⟨hmem, hne⟩, hk2⟩
  exact hne hk2

theorem lookup_getAll (t : PgTable) (k : String) :
    List.lookup k (getAll t) =
      (List.lookup k t).map (fun stored => KeyJs.getProp stored "value") := by
  induction t with
  | nil => rfl
  | cons row rest ih =>
    rcases row with ⟨rk, rv⟩
    rw [getAll, List.map_cons]
    dsimp only
    rw [lookup_cons, lookup_cons]
    by_cases h : k = rk
    · rw [if_pos h, if_pos h]
      rfl
    · rw [if_neg h, if_neg h, ← getAll, ih]

end KeyJs.Postgres

namespace KeyJs

/-- C1: for every key k and value v, after upsert(k,v) the memory store
answers get(k) = v until the next operation that writes k (an
upsert(k,·), delete(k) or nuke); after a successful delete(k), get(k)
is the absent marker until the next upsert(k,·); and in a sequential
run upsert(k,v1) followed by upsert(k,v2) makes get(k) return v2. The
duplicate-free hypothesis is the JavaScript object invariant (a
property name is bound at most once). -/
theorem upsert_get_delete_invariant :
    (∀ (s : Memory.MemStore) (k : String) (v : Json) (ops : List Memory.Op),
       (∀ op ∈ ops, Memory.touchesKey k op = false) →
       Memory.get (Memory.applyOps (Memory.upsert s k v) ops) k = some v)
  ∧ (∀ (s : Memory.MemStore) (k : String) (ops : List Memory.Op),
       (s.map Prod.fst).Nodup →
       (∀ op ∈ ops, Memory.isUpsertTo k op = false) →
       Memory.get (Memory.applyOps ((Memory.del s k).1) ops) k = none)
  ∧ (∀ (s : Memory.MemStore) (k : String) (v₁ v₂ : Json),
       Memory.get (Memory.upsert (Memory.upsert s k v₁) k v₂) k = some v₂) := by
  refine ⟨fun s k v ops h => ?_, fun s k ops hnd h => ?_,
    fun s k v₁ v₂ => Memory.get_upsert_self _ k v₂⟩
  · rw [Memory.get_applyOps_untouched _ h]
    exact Memory.get_upsert_self s k v
  · exact Memory.get_applyOps_absent _ h (Memory.get_del_self s k hnd)

/-- Witness for C1 at concrete inputs: an upsert of TEST_KEY survives an
upsert to a different key, and a deleted TEST_KEY stays absent across
a delete of a different key. -/
theorem upsert_get_delete_invariant_witness :
    Memory.get (Memory.applyOps (Memory.upsert [] "TEST_KEY" (Json.arr []))
        [Memory.Op.upsertOp "other_key" (Json.obj [])]) "TEST_KEY" = some (Json.arr [])
  ∧ Memory.get (Memory.applyOps ((Memory.del [("key_TEST_KEY", Json.arr [])] "TEST_KEY").1)
        [Memory.Op.deleteOp "other_key"]) "TEST_KEY" = none :=
  ⟨upsert_get_delete_invariant.1 [] "TEST_KEY" (Json.arr []) _ (by decide),
   upsert_get_delete_invariant.2.1 [("key_TEST_KEY", Json.arr [])] "TEST_KEY" _
     (by decide) (by decide)⟩

/-- C2, evaluated on the validation inputs of the claim: a bare JSON
null, string or number is rejected with 400 before the store is
reached, and the empty key matches no route (404, store untouched) —
but the empty request body with a JSON content type is parsed to the
empty object and UPSERTED with 201, contradicting the claim (and the
README, which says the request body must not be empty). -/
theorem put_validation_behaviour :
    Router.putPipeline "TEST_KEY" true Router.RawBody.empty
      = (201, [Router.StoreCall.upsertCall "TEST_KEY" (Json.obj [])])
  ∧ Router.putPipeline "TEST_KEY" true (Router.RawBody.jsonText Json.null) = (400, [])
  ∧ Router.putPipeline "TEST_KEY" true (Router.RawBody.jsonText (Json.str "x")) = (400, [])
  ∧ Router.putPipeline "TEST_KEY" true (Router.RawBody.jsonText (Json.num 5)) = (400, [])
  ∧ Router.putPipeline "" true (Router.RawBody.jsonText (Json.arr [])) = (404, []) :=
  ⟨rfl, rfl, rfl, rfl, rfl⟩

/-- C3 counterexample: with allowNuke set, a body whose nuke field is
the number 1 — not the exact confirmation object with nuke equal to
true — still nukes the store and yields 200, because the code only
tests JavaScript truthiness of req.body.nuke. -/
theorem nuke_exact_body_counterexample :
    Router.nukeRoute true (Json.obj [("nuke", Json.num 1)])
      = (200, [Router.StoreCall.nukeCall])
  ∧ getProp (Json.obj [("nuke", Json.num 1)]) "nuke" ≠ some (Json.bool true) := by
  constructor
  · rfl
  · intro h
    rw [show getProp (Json.obj [("nuke", Json.num 1)]) "nuke" = some (Json.num 1) from rfl] at h
    exact Json.noConfusion (Option.some.inj h)

/-- Helper: a value with any property at all is a JSON object, and
objects are truthy — so the middle conjunct of the nuke guard is
implied by the presence of the nuke property. -/
theorem jsTruthy_of_getProp_some {b : Json} {name : String} {j : Json}
    (h : getProp b name = some j) : jsTruthy b = true := by
  cases b <;> simp [getProp, jsTruthy] at h ⊢

/-- Helper: the nuke guard holds exactly when the flag is set and the
body has a truthy nuke property. -/
theorem nukeAllowed_eq_true_iff (a : Bool) (b : Json) :
    Router.nukeAllowed a b = true ↔
      (a = true ∧ ∃ j, getProp b "nuke" = some j ∧ jsTruthy j = true) := by
  constructor
  · intro h
    rw [Router.nukeAllowed] at h
    simp only [Bool.and_eq_true] at h
    rcases h with ⟨ha, hb, hm⟩
    rcases hg : getProp b "nuke" with _ | j
    · rw [hg] at hm
      exact absurd hm (by simp)
    · rw [hg] at hm
      exact ⟨ha, j, rfl, hm⟩
  · rintro ⟨ha, j, hg, hj⟩
    subst ha
    rw [Router.nukeAllowed, hg]
    simp [jsTruthy_of_getProp_some hg, hj]

/-- C3 as amended: for every flag value and every request body, the
nuke endpoint responds 200 and invokes store.nuke IF AND ONLY IF the
allowNuke flag is set and the body has a truthy nuke property; in
every other case — flag unset, nuke property missing, or nuke
property present but falsy — it responds 400 and invokes no store
operation. -/
theorem nuke_double_gate :
    ∀ (allowNuke : Bool) (body : Json),
      (Router.nukeRoute allowNuke body = (200, [Router.StoreCall.nukeCall]) ↔
        (allowNuke = true ∧ ∃ j, getProp body "nuke" = some j ∧ jsTruthy j = true))
      ∧ (¬(allowNuke = true ∧ ∃ j, getProp body "nuke" = some j ∧ jsTruthy j = true) →
        Router.nukeRoute allowNuke body = (400, [])) := by
  intro a b
  constructor
  · rw [Router.nukeRoute]
    by_cases hc : Router.nukeAllowed a b = true
    · rw [if_pos hc]
      exact ⟨fun _ => (nukeAllowed_eq_true_iff a b).mp hc, fun _ => rfl⟩
    · rw [if_neg hc]
      constructor
      · intro h
        exact absurd h (by simp)
      · intro hg
        exact absurd ((nukeAllowed_eq_true_iff a b).mpr hg) hc
  · intro hng
    rw [Router.nukeRoute, if_neg (fun hc => hng ((nukeAllowed_eq_true_iff a b).mp hc))]

/-- Witness for C3 (amended) at concrete inputs: the confirmation body
with the flag set yields 200 with the nuke call; a present-but-falsy
nuke property yields 400 with no store call; and the flag unset
yields 400 with no store call even on the confirmation body. -/
theorem nuke_double_gate_witness :
    Router.nukeRoute true (Json.obj [("nuke", Json.bool true)])
      = (200, [Router.StoreCall.nukeCall])
  ∧ Router.nukeRoute true (Json.obj [("nuke", Json.bool false)]) = (400, [])
  ∧ Router.nukeRoute false (Json.obj [("nuke", Json.bool true)]) = (400, []) :=
  ⟨(nuke_double_gate true (Json.obj [("nuke", Json.bool true)])).1.mpr
     ⟨rfl, Json.bool true, rfl, rfl⟩,
   (nuke_double_gate true (Json.obj [("nuke", Json.bool false)])).2
     (by
       rintro ⟨_, j, hg, hj⟩
       rw [show getProp (Json.obj [("nuke", Json.bool false)]) "nuke"
             = some (Json.bool false) from rfl] at hg
       cases Option.some.inj hg
       exact Bool.noConfusion hj),
   (nuke_double_gate false (Json.obj [("nuke", Json.bool true)])).2
     (by
       rintro ⟨hfl, _⟩
       exact Bool.noConfusion hfl)⟩

/-- C4, evaluated at a rejected store promise: the get-one, delete,
upsert and nuke routes forward the failure to the error middleware
via next (the 500 path), but the get-all route attaches no rejection
handler, so its store failure is silently dropped — neither a
response nor the error path — contradicting the claim (and the
source comment saying the next idiom is repeated for the other
endpoints). -/
theorem getAll_rejection_dropped :
    Router.routeGetAll (Except.error "connection refused") = Router.Outcome.dropped
  ∧ Router.routeGetKey "k" (Except.error "connection refused")
      = Router.Outcome.serverError "connection refused"
  ∧ Router.routeDeleteKey "k" (Except.error "connection refused")
      = Router.Outcome.serverError "connection refused"
  ∧ Router.routePutUpsert "k" (Except.error "connection refused")
      = Router.Outcome.serverError "connection refused"
  ∧ Router.routeNuke (Except.error "connection refused")
      = Router.Outcome.serverError "connection refused"
  ∧ Router.Outcome.dropped ≠ Router.Outcome.serverError "connection refused" :=
  ⟨rfl, rfl, rfl, rfl, rfl, fun h => Router.Outcome.noConfusion h⟩

/-- C5: delete returns a count in 0..1; the count is 1 exactly when the
key is present; the deleted key is afterwards absent; a count of 0
leaves the store unchanged (delete of an absent key is a normal
resolved result, modelled as a total function); and the Postgres
delete resolves the rowCount with the same contract on any table
whose primary-key column is duplicate-free. -/
theorem delete_count_spec :
    (∀ (s : Memory.MemStore) (k : String), (Memory.del s k).2 = 0 ∨ (Memory.del s k).2 = 1)
  ∧ (∀ (s : Memory.MemStore) (k : String), ((Memory.del s k).2 = 1 ↔ Memory.get s k ≠ none))
  ∧ (∀ (s : Memory.MemStore) (k : String), (s.map Prod.fst).Nodup →
       Memory.get ((Memory.del s k).1) k = none)
  ∧ (∀ (s : Memory.MemStore) (k : String), (Memory.del s k).2 = 0 → (Memory.del s k).1 = s)
  ∧ (∀ (t : Postgres.PgTable) (k : String), (t.map Prod.fst).Nodup →
       ((Postgres.del t k).2 = 0 ∨ (Postgres.del t k).2 = 1)
       ∧ ((Postgres.del t k).2 = 1 ↔ List.lookup k t ≠ none)
       ∧ Postgres.get ((Postgres.del t k).1) k = none) := by
  refine ⟨?_, ?_, fun s k hnd => Memory.get_del_self s k hnd, ?_, ?_⟩
  · intro s k
    by_cases hs : AList.hasKey s (Memory.prepKey k)
    · right
      rw [Memory.del, if_pos hs]
    · left
      rw [Memory.del, if_neg hs]
  · intro s k
    by_cases hs : AList.hasKey s (Memory.prepKey k)
    · rw [Memory.del, if_pos hs]
      have hne : Memory.get s k ≠ none := by
        rw [Memory.get, Ne, AList.lookup_eq_none_iff_not_hasKey, hs]
        exact fun hc => Bool.noConfusion hc
      simp [hne]
    · rw [Memory.del, if_neg hs]
      have heq : Memory.get s k = none := by
        rw [Memory.get]
        exact (AList.lookup_eq_none_iff_not_hasKey s _).mpr (Bool.not_eq_true _ |>.mp hs)
      simp [heq]
  · intro s k h
    by_cases hs : AList.hasKey s (Memory.prepKey k)
    · rw [Memory.del, if_pos hs] at h
      simp at h
    · rw [Memory.del, if_neg hs]
  · intro t k hnd
    have hle := Postgres.countP_key_le_one t k hnd
    refine ⟨?_, ?_, ?_⟩
    · show t.countP (fun row => row.1 = k) = 0 ∨ t.countP (fun row => row.1 = k) = 1
      omega
    · show t.countP (fun row => row.1 = k) = 1 ↔ List.lookup k t ≠ none
      constructor
      · intro h1
        exact (Postgres.countP_key_pos_iff t k).mp (by omega)
      · intro h2
        have hpos := (Postgres.countP_key_pos_iff t k).mpr h2
        omega
    · show Postgres.get (t.filter (fun row => row.1 ≠ k)) k = none
      rw [Postgres.get, Postgres.lookup_filter_key_out]

/-- Witness for C5 at concrete one-entry stores: the deleted key is
absent afterwards in the memory store, and the Postgres delete
contract holds on a one-row table. -/
theorem delete_count_spec_witness :
    Memory.get ((Memory.del [("key_TEST_KEY", Json.obj [])] "TEST_KEY").1) "TEST_KEY" = none
  ∧ (((Postgres.del [("TEST_KEY", Postgres.wrapValue (Json.obj []))] "TEST_KEY").2 = 0 ∨
      (Postgres.del [("TEST_KEY", Postgres.wrapValue (Json.obj []))] "TEST_KEY").2 = 1)
     ∧ ((Postgres.del [("TEST_KEY", Postgres.wrapValue (Json.obj []))] "TEST_KEY").2 = 1 ↔
        List.lookup "TEST_KEY" [("TEST_KEY", Postgres.wrapValue (Json.obj []))] ≠ none)
     ∧ Postgres.get ((Postgres.del [("TEST_KEY", Postgres.wrapValue (Json.obj []))]
          "TEST_KEY").1) "TEST_KEY" = none) :=
  ⟨delete_count_spec.2.2.1 [("key_TEST_KEY", Json.obj [])] "TEST_KEY" (by decide),
   delete_count_spec.2.2.2.2 [("TEST_KEY", Postgres.wrapValue (Json.obj []))] "TEST_KEY"
     (by decide)⟩

/-- C6: a nuke empties the memory store, so getAll afterwards returns
the empty mapping, whatever the prior contents and in particular
after any finite sequence of upserts and deletes. -/
theorem nuke_getAll_empty :
    (∀ s : Memory.MemStore, Memory.getAll (Memory.nuke s) = [])
  ∧ (∀ ops : List Memory.Op, Memory.getAll (Memory.nuke (Memory.applyOps [] ops)) = []) :=
  ⟨fun _ => rfl, fun _ => rfl⟩

/-- C7: the dispatcher maps store results to status codes as specified —
a present get result is sent with 200 and the value, the absent
marker yields 404; a delete count of 1 yields 200, a count of 0
yields 404. -/
theorem dispatcher_status_mapping :
    (∀ (k : String) (v : Json), Router.routeGetKey k (Except.ok (some v))
       = Router.Outcome.response ⟨200, Router.ResBody.json v⟩)
  ∧ (∀ k : String, Router.routeGetKey k (Except.ok none)
       = Router.Outcome.response ⟨404, Router.ResBody.text ("No value for key " ++ k)⟩)
  ∧ (∀ k : String, Router.routeDeleteKey k (Except.ok 1)
       = Router.Outcome.response ⟨200, Router.ResBody.text ("Deleted " ++ k)⟩)
  ∧ (∀ k : String, Router.routeDeleteKey k (Except.ok 0)
       = Router.Outcome.response
           ⟨404, Router.ResBody.text ("Key `" ++ k ++ "` was not in the store!")⟩) :=
  ⟨fun _ _ => rfl, fun _ => rfl, fun _ => rfl, fun _ => rfl⟩

/-- C8: the Postgres store wraps every value in the envelope object on
upsert and unwraps it symmetrically on get and getAll, so the pair is
a round-trip identity and for every key and value (bare arrays
included) upsert then get yields the value itself, and getAll maps
the key to the value itself — the envelope is never visible through
the store interface. -/
theorem postgres_envelope_roundtrip :
    (∀ v : Json, getProp (Postgres.wrapValue v) "value" = some v)
  ∧ (∀ (t : Postgres.PgTable) (k : String) (v : Json),
       Postgres.get (Postgres.upsert t k v) k = some v)
  ∧ (∀ (t : Postgres.PgTable) (k : String) (v : Json),
       List.lookup k (Postgres.getAll (Postgres.upsert t k v)) = some (some v)) := by
  refine ⟨Postgres.getProp_wrapValue, fun t k v => ?_, fun t k v => ?_⟩
  · rw [Postgres.upsert, Postgres.get, AList.lookup_setKey_self]
    exact Postgres.getProp_wrapValue v
  · rw [Postgres.upsert, Postgres.lookup_getAll, AList.lookup_setKey_self]
    simp [Postgres.getProp_wrapValue]

/-- C9: the key munging of the memory store is collision-safe and
invisible — prepKey is injective (distinct external keys, including
names like prototype, never share an internal slot), getAll strips
the internal prefix exactly, and for any sequence of upserted pairs
the keys of getAll are exactly the upserted external keys. -/
theorem prepKey_collision_safe :
    (∀ k₁ k₂ : String, Memory.prepKey k₁ = Memory.prepKey k₂ → k₁ = k₂)
  ∧ (∀ k : String, Memory.sliceFrom (Memory.prepKey k) Memory.KEY_PREFIX.length = k)
  ∧ (∀ (kvs : List (String × Json)) (k : String),
       k ∈ (Memory.getAll (Memory.upsertAll kvs)).map Prod.fst ↔ k ∈ kvs.map Prod.fst) := by
  refine ⟨fun k₁ k₂ h => Memory.prepKey_injective h, Memory.sliceFrom_prepKey,
    fun kvs k => ?_⟩
  have hm : Memory.IsMunged (kvs.foldl (fun s kv => Memory.upsert s kv.1 kv.2) []) :=
    Memory.isMunged_upsertAll_aux kvs [] (fun p hp => absurd hp (List.not_mem_nil p))
  rw [show Memory.upsertAll kvs = kvs.foldl (fun s kv => Memory.upsert s kv.1 kv.2) [] from rfl]
  rw [Memory.mem_keys_getAll _ hm k]
  rw [Memory.mem_keys_upsertAll_aux kvs [] k]
  simp

/-- Witness for C9 at concrete inputs: the munge of a reserved-looking
name strips back exactly, and the getAll keys of a two-upsert store
are the upserted keys. -/
theorem prepKey_collision_safe_witness :
    ("prototype" : String) = "prototype"
  ∧ Memory.sliceFrom (Memory.prepKey "__proto__") Memory.KEY_PREFIX.length = "__proto__"
  ∧ ("a" ∈ (Memory.getAll (Memory.upsertAll
        [("a", Json.obj []), ("prototype", Json.arr [])])).map Prod.fst ↔
      "a" ∈ [("a", Json.obj []), ("prototype", Json.arr [])].map Prod.fst) :=
  ⟨prepKey_collision_safe.1 "prototype" "prototype" rfl,
   prepKey_collision_safe.2.1 "__proto__",
   prepKey_collision_safe.2.2 [("a", Json.obj []), ("prototype", Json.arr [])] "a"⟩

/-- C10: the memory store upsert(k,v) and delete(k) modify at most the
entry for k — for every other key the result of get is unchanged. -/
theorem upsert_delete_frame :
    ∀ (s : Memory.MemStore) (k k' : String) (v : Json), k' ≠ k →
      Memory.get (Memory.upsert s k v) k' = Memory.get s k'
      ∧ Memory.get ((Memory.del s k).1) k' = Memory.get s k' :=
  fun s k k' v h => ⟨Memory.get_upsert_ne s v h, Memory.get_del_ne s h⟩

/-- Witness for C10 at a concrete store: writing and deleting key b
leaves the entry of key a untouched. -/
theorem upsert_delete_frame_witness :
    Memory.get (Memory.upsert [("key_a", Json.obj [])] "b" (Json.arr [])) "a"
      = Memory.get [("key_a", Json.obj [])] "a"
  ∧ Memory.get ((Memory.del [("key_a", Json.obj [])] "b").1) "a"
      = Memory.get [("key_a", Json.obj [])] "a" :=
  upsert_delete_frame [("key_a", Json.obj [])] "b" "a" (Json.arr []) (by decide)

end KeyJs
